import Mathlib

/-!
Verification of the transcript-viewer core (content normalization and
presentation model) against its specification.

The embedding models the TypeScript sources character-for-character where it
matters:
  * `processBackspaces`   from `src/utils/textProcessing.ts`
  * `blockType` / `classify` from `ContentBlockRenderer` in
    `src/components/MessageRenderer.tsx` (lines 63-98)
  * `isTodoResult` / `extractTasks` from `ToolResultBlock` in
    `src/components/MessageRenderer.tsx` (lines 267-293)
  * `handleSearchResultClick` from `src/components/AppSidebar.tsx` (151-175)
  * `filteredResults` from `src/components/AppSidebar.tsx` (65-68)

Strings are modelled as `List Char` where character-level traversal happens
(text repair, substring detection, brace matching, JSON parsing) and as
`String` in record fields.  JavaScript `undefined` for an absent optional
field is modelled as `Option.none`; JavaScript truthiness is modelled by
`jsTruthy` on JSON values and by emptiness tests on strings.  Failure that
the code swallows (JSON.parse exceptions) is modelled as `Option.none`.
-/

/-- A JSON-like dynamic value, standing for the TypeScript `any` payloads
(`input`, `tool_use_result`) and for the values produced by `JSON.parse`.
Numeric literals keep their lexeme: no claim inspects numeric magnitude,
only JavaScript truthiness, which is decidable from the lexeme. -/
inductive Json where
  | null : Json
  | bool (b : Bool) : Json
  | num (lexeme : String) : Json
  | str (s : String) : Json
  | arr (elems : List Json) : Json
  | obj (fields : List (String × Json)) : Json

/-- The digits of a JSON number lexeme before any exponent part. -/
def mantissaDigits (l : List Char) : List Char :=
  (l.takeWhile (fun c => ¬ (c == 'e' || c == 'E'))).filter Char.isDigit

/-- A JSON number lexeme denotes zero exactly when every mantissa digit is 0
(`0`, `-0`, `0.00`, `0e9`, ...); those are the falsy JSON numbers. -/
def numLexIsZero (lex : String) : Bool :=
  (mantissaDigits lex.toList).all (fun c => c == '0')

/-- JavaScript truthiness of a JSON value: `null`, `false`, zero numbers and
the empty string are falsy; arrays and objects are always truthy. -/
def jsTruthy : Json → Bool
  | .null => false
  | .bool b => b
  | .num lex => ! numLexIsZero lex
  | .str s => ! (s == "")
  | .arr _ => true
  | .obj _ => true

/-- JavaScript property access `v[key]` on a JSON value: defined only on
objects, `undefined` (`none`) otherwise. -/
def jsonGet : Json → String → Option Json
  | .obj fields, key => lookupField fields key
  | _, _ => none
where
  lookupField : List (String × Json) → String → Option Json
    | [], _ => none
    | (k, v) :: rest, key => if k == key then some v else lookupField rest key

/-- `Array.isArray` on a JSON value. -/
def Json.isArr : Json → Bool
  | .arr _ => true
  | _ => false

/-- `startsWith` on character lists: does the second list begin with the
first? -/
def listStartsWith : List Char → List Char → Bool
  | [], _ => true
  | _ :: _, [] => false
  | a :: as, b :: bs => a == b && listStartsWith as bs

/-- JavaScript `haystack.includes(needle)`: the needle occurs contiguously
somewhere in the haystack. -/
def listHasSub (needle : List Char) : List Char → Bool
  | [] => needle.isEmpty
  | c :: rest => listStartsWith needle (c :: rest) || listHasSub needle rest

/-- `String.includes` on Lean strings, via the character lists. -/
def strIncludes (hay needle : String) : Bool :=
  listHasSub needle.toList hay.toList

/-! ## Text Repair (`processBackspaces`, `src/utils/textProcessing.ts`) -/

/-- The backspace control character (code point 8). -/
def backspaceChar : Char := Char.ofNat 8

/-- One step of the repair loop body: on a backspace drop the last character
of the output buffer (`result.slice(0, -1)`, a no-op on the empty buffer),
otherwise append the character (`result += char`). -/
def bsStep (acc : List Char) (c : Char) : List Char :=
  if c == backspaceChar then acc.dropLast else acc ++ [c]

/-- `processBackspaces` from `src/utils/textProcessing.ts`: fast path returns
the input unchanged when it contains no backspace, otherwise the
left-to-right loop builds the output buffer. -/
def processBackspaces (text : List Char) : List Char :=
  if text.contains backspaceChar then text.foldl bsStep [] else text

/-- The single left-to-right pass exactly as the specification words it:
maintain an output buffer; on the backspace control character remove the
last character appended when the buffer is non-empty and do nothing when it
is empty; on any other character append it unchanged.  No fast path. -/
def repairSpecPass (text : List Char) : List Char :=
  text.foldl
    (fun buf c =>
      if c == backspaceChar then
        if buf = [] then buf else buf.dropLast
      else buf ++ [c])
    []

theorem bsStep_eq_specStep (buf : List Char) (c : Char) :
    bsStep buf c =
      (if c == backspaceChar then
        if buf = [] then buf else buf.dropLast
      else buf ++ [c]) := by
  unfold bsStep
  by_cases h : c == backspaceChar
  · simp only [h, if_true]
    by_cases hb : buf = []
    · simp [hb]
    · simp [hb]
  · simp [h]

theorem foldl_bsStep_no_backspace (text : List Char)
    (h : backspaceChar ∉ text) :
    ∀ acc : List Char, text.foldl bsStep acc = acc ++ text := by
  induction text with
  | nil => intro acc; simp
  | cons c rest ih =>
      intro acc
      have hc : c ≠ backspaceChar := fun hc => h (hc ▸ List.mem_cons_self c rest)
      have hrest : backspaceChar ∉ rest := fun hr => h (List.mem_cons_of_mem c hr)
      have hb : (c == backspaceChar) = false := by
        simp [hc]
      simp only [List.foldl_cons, bsStep, hb, Bool.false_eq_true, if_false]
      rw [ih hrest (acc ++ [c])]
      simp

theorem foldl_bsStep_no_backspace_out (text : List Char) :
    ∀ acc : List Char, backspaceChar ∉ acc →
      backspaceChar ∉ text.foldl bsStep acc := by
  induction text with
  | nil => intro acc hacc; simpa using hacc
  | cons c rest ih =>
      intro acc hacc
      simp only [List.foldl_cons]
      apply ih
      unfold bsStep
      by_cases h : c == backspaceChar
      · simp only [h, if_true]
        intro hmem
        exact hacc (List.dropLast_subset acc hmem)
      · simp only [h, Bool.false_eq_true, if_false]
        intro hmem
        rcases List.mem_append.mp hmem with h1 | h2
        · exact hacc h1
        · rcases List.mem_singleton.mp h2 with rfl
          simp at h

theorem processBackspaces_eq_foldl (text : List Char) :
    processBackspaces text = text.foldl bsStep [] := by
  unfold processBackspaces
  by_cases h : text.contains backspaceChar
  · simp only [h, if_true]
  · simp only [h, Bool.false_eq_true, if_false]
    have hmem : backspaceChar ∉ text := fun hm => h (List.elem_iff.mpr hm)
    rw [foldl_bsStep_no_backspace text hmem []]
    simp

theorem foldl_specStep_eq_bsStep (text : List Char) :
    ∀ acc : List Char,
      text.foldl
        (fun buf c =>
          if c == backspaceChar then
            if buf = [] then buf else buf.dropLast
          else buf ++ [c]) acc
      = text.foldl bsStep acc := by
  induction text with
  | nil => intro acc; rfl
  | cons c rest ih =>
      intro acc
      simp only [List.foldl_cons]
      rw [← bsStep_eq_specStep acc c, ih (bsStep acc c)]

/-- C3: `repair` equals the single left-to-right pass over the input with
the buffer semantics the specification describes (backspace deletes the last
buffered character, a leading backspace is a no-op), and the two concrete
examples `repair("ab\x08c") = "ac"` and `repair("\x08abc") = "abc"` hold. -/
theorem processBackspaces_is_single_pass :
    (∀ text : List Char, processBackspaces text = repairSpecPass text) ∧
    processBackspaces "ab\x08c".toList = "ac".toList ∧
    processBackspaces "\x08abc".toList = "abc".toList := by
  refine ⟨fun text => ?_, by decide, by decide⟩
  rw [processBackspaces_eq_foldl]
  unfold repairSpecPass
  rw [foldl_specStep_eq_bsStep]

theorem processBackspaces_no_backspace (text : List Char)
    (h : backspaceChar ∉ text) : processBackspaces text = text := by
  unfold processBackspaces
  have hc : text.contains backspaceChar = false := by
    cases hc : text.contains backspaceChar
    · rfl
    · exact absurd (List.elem_iff.mp hc) h
  simp only [hc, Bool.false_eq_true, if_false]

theorem processBackspaces_output_clean (text : List Char) :
    backspaceChar ∉ processBackspaces text := by
  unfold processBackspaces
  by_cases h : text.contains backspaceChar
  · simp only [h, if_true]
    exact foldl_bsStep_no_backspace_out text [] (by simp)
  · simp only [h, Bool.false_eq_true, if_false]
    intro hmem
    exact h (List.elem_iff.mpr hmem)

/-- C8: `repair` is the identity on backspace-free input and is idempotent
on every input. -/
theorem processBackspaces_idempotent :
    (∀ text : List Char, backspaceChar ∉ text → processBackspaces text = text) ∧
    (∀ text : List Char,
      processBackspaces (processBackspaces text) = processBackspaces text) := by
  constructor
  · exact processBackspaces_no_backspace
  · intro text
    exact processBackspaces_no_backspace (processBackspaces text)
      (processBackspaces_output_clean text)

/-- Witness for C8 at concrete inputs: `"abc"` is backspace-free and is kept
unchanged, and repairing `"a\x08b"` twice equals repairing it once. -/
theorem processBackspaces_idempotent_witness :
    processBackspaces "abc".toList = "abc".toList ∧
    processBackspaces (processBackspaces "a\x08b".toList) =
      processBackspaces "a\x08b".toList :=
  ⟨processBackspaces_idempotent.1 "abc".toList (by decide),
   processBackspaces_idempotent.2 "a\x08b".toList⟩

/-! ## Content Model and Classifier (`ContentBlockRenderer`,
`src/components/MessageRenderer.tsx` lines 63-98) -/

/-- The raw content segment, mirroring the `ContentBlock` interface of
`src/types/chat.ts`: every field is optional (`undefined` = `none`); the
`any`-typed payloads are `Json` values. -/
structure ContentBlock where
  block_type : Option String
  type : Option String
  text : Option String
  name : Option String
  input : Option Json
  tool_use_id : Option String
  content : Option String
  tool_use_result : Option Json
  thinking : Option String

/-- JavaScript `a || b` on an optional string against a string default:
`a` when present and truthy (non-empty), otherwise `b`. -/
def jsOrStr (a : Option String) (b : String) : String :=
  match a with
  | some s => if s == "" then b else s
  | none => b

/-- The effective type tag of a raw segment, exactly as
`const blockType = block.block_type || (block as any).type || "unknown"`. -/
def blockTypeOf (block : ContentBlock) : String :=
  jsOrStr block.block_type (jsOrStr block.type "unknown")

/-- The classified segment: the closed five-variant output of the content
classifier.  `Unrecognized` keeps the whole raw segment, i.e. every field it
had, as the debug branch of `ContentBlockRenderer` displays all of
`Object.keys(block)` and `JSON.stringify(block)`. -/
inductive ClassifiedSegment where
  | text (body : String) : ClassifiedSegment
  | toolInvocation (name : Option String) (input : Option Json) : ClassifiedSegment
  | toolOutput (correlationId : Option String) (rawText : Option String)
      (structuredPayload : Option Json) : ClassifiedSegment
  | reasoningTrace (body : String) : ClassifiedSegment
  | unrecognized (originalFields : ContentBlock) : ClassifiedSegment

/-- Is the segment the `Unrecognized` variant? -/
def ClassifiedSegment.isUnrecognized : ClassifiedSegment → Bool
  | .unrecognized _ => true
  | _ => false

/-- The content classifier: the `switch (blockType)` dispatch of
`ContentBlockRenderer`.  The `"text"` case renders `block.text || ""`; the
`"tool_use"` case hands `block.name`/`block.input` to the tool view; the
`"tool_result"` case hands `block.tool_use_id`/`block.content`/
`block.tool_use_result` to the tool-result view; the `"thinking"` case
renders `block.thinking` (empty display when falsy); the default case is the
debug view of the whole block. -/
def classify (block : ContentBlock) : ClassifiedSegment :=
  let bt := blockTypeOf block
  if bt == "text" then .text (jsOrStr block.text "")
  else if bt == "tool_use" then .toolInvocation block.name block.input
  else if bt == "tool_result" then
    .toolOutput block.tool_use_id block.content block.tool_use_result
  else if bt == "thinking" then .reasoningTrace (jsOrStr block.thinking "")
  else .unrecognized block

/-- Is the effective tag one of the four tags the dispatch recognizes? -/
def isKnownTag (t : String) : Bool :=
  t == "text" || t == "tool_use" || t == "tool_result" || t == "thinking"

/-- Effective-tag resolution exactly as the claim words it: read the primary
field `block_type`; if it is absent or empty fall back to the secondary
field `type`; if that too is absent or empty the effective tag is
`"unknown"`. -/
def claimEffectiveTag (block : ContentBlock) : String :=
  match block.block_type with
  | some s => if s = "" then claimSecondary block else s
  | none => claimSecondary block
where
  claimSecondary (block : ContentBlock) : String :=
    match block.type with
    | some t => if t = "" then "unknown" else t
    | none => "unknown"

/-- The classifier as the claim words it: on the four known effective tags
produce the corresponding variant (`Text` with body the `text` field or
empty string, `ToolInvocation`, `ToolOutput`, `ReasoningTrace` with body the
`thinking` field or empty string); on every other effective tag produce
`Unrecognized` carrying every field of the raw segment. -/
def claimClassify (block : ContentBlock) : ClassifiedSegment :=
  let t := claimEffectiveTag block
  if t = "text" then .text (block.text.getD "")
  else if t = "tool_use" then .toolInvocation block.name block.input
  else if t = "tool_result" then
    .toolOutput block.tool_use_id block.content block.tool_use_result
  else if t = "thinking" then .reasoningTrace (block.thinking.getD "")
  else .unrecognized block

theorem blockTypeOf_eq_claimEffectiveTag (block : ContentBlock) :
    blockTypeOf block = claimEffectiveTag block := by
  unfold blockTypeOf claimEffectiveTag claimEffectiveTag.claimSecondary jsOrStr
  cases hb : block.block_type with
  | none =>
      cases ht : block.type with
      | none => rfl
      | some t => by_cases h : t = "" <;> simp [h]
  | some s =>
      by_cases h : s = ""
      · cases ht : block.type with
        | none => simp [h]
        | some t => by_cases h2 : t = "" <;> simp [h, h2]
      · simp [h]

theorem jsOrStr_empty_default (a : Option String) :
    jsOrStr a "" = a.getD "" := by
  unfold jsOrStr
  cases a with
  | none => rfl
  | some s => by_cases h : s = "" <;> simp [h]

/-- C1: the classifier resolves the effective tag by reading `block_type`,
falling back to `type` when the primary is absent or empty and to
`"unknown"` when both give nothing; on the four known tags it produces the
corresponding classified variant (never `Unrecognized`), and on every other
effective tag it produces `Unrecognized` carrying every field of the raw
segment.  Stated as: `classify` equals the classifier worded by the claim,
and the result is `Unrecognized` exactly when the effective tag is not a
known tag. -/
theorem classify_resolves_and_dispatches (block : ContentBlock) :
    classify block = claimClassify block ∧
    (classify block).isUnrecognized = ! isKnownTag (blockTypeOf block) := by
  have htag := blockTypeOf_eq_claimEffectiveTag block
  constructor
  · unfold classify claimClassify
    rw [← htag, jsOrStr_empty_default, jsOrStr_empty_default]
    by_cases h1 : blockTypeOf block = "text"
    · simp [h1]
    · by_cases h2 : blockTypeOf block = "tool_use"
      · simp [h1, h2]
      · by_cases h3 : blockTypeOf block = "tool_result"
        · simp [h1, h2, h3]
        · by_cases h4 : blockTypeOf block = "thinking"
          · simp [h1, h2, h3, h4]
          · simp [h1, h2, h3, h4]
  · unfold classify isKnownTag
    by_cases h1 : blockTypeOf block = "text"
    · simp [h1, ClassifiedSegment.isUnrecognized]
    · by_cases h2 : blockTypeOf block = "tool_use"
      · simp [h1, h2, ClassifiedSegment.isUnrecognized]
      · by_cases h3 : blockTypeOf block = "tool_result"
        · simp [h1, h2, h3, ClassifiedSegment.isUnrecognized]
        · by_cases h4 : blockTypeOf block = "thinking"
          · simp [h1, h2, h3, h4, ClassifiedSegment.isUnrecognized]
          · simp [h1, h2, h3, h4, ClassifiedSegment.isUnrecognized]

/-- The raw segment with no fields at all. -/
def emptyBlock : ContentBlock :=
  ⟨none, none, none, none, none, none, none, none, none⟩

/-- C9: the classifier is total.  Every raw segment, including the one with
no fields at all, classifies to a result (there is no error outcome: the
embedding of the dispatch is a total function), and whenever the effective
tag is not a known tag the explicit fallback yields `Unrecognized` carrying
the whole raw segment rather than throwing. -/
theorem classify_total (block : ContentBlock) :
    (∃ out : ClassifiedSegment, classify block = out) ∧
    classify emptyBlock = .unrecognized emptyBlock ∧
    (isKnownTag (blockTypeOf block) = false →
      classify block = .unrecognized block) := by
  refine ⟨⟨classify block, rfl⟩, rfl, fun h => ?_⟩
  unfold isKnownTag at h
  unfold classify
  have h1 : (blockTypeOf block == "text") = false := by
    cases hb : blockTypeOf block == "text"
    · rfl
    · rw [hb] at h; simp at h
  have h2 : (blockTypeOf block == "tool_use") = false := by
    cases hb : blockTypeOf block == "tool_use"
    · rfl
    · rw [hb] at h; simp at h
  have h3 : (blockTypeOf block == "tool_result") = false := by
    cases hb : blockTypeOf block == "tool_result"
    · rfl
    · rw [hb] at h; simp at h
  have h4 : (blockTypeOf block == "thinking") = false := by
    cases hb : blockTypeOf block == "thinking"
    · rfl
    · rw [hb] at h; simp at h
  simp only [h1, h2, h3, h4, Bool.false_eq_true, if_false]

/-- Witness for C9: the block whose only field is `block_type = "mystery"`
has an unknown effective tag and classifies, without error, to
`Unrecognized` carrying the block. -/
theorem classify_total_witness :
    isKnownTag (blockTypeOf
        ⟨some "mystery", none, none, none, none, none, none, none, none⟩) = false ∧
    classify ⟨some "mystery", none, none, none, none, none, none, none, none⟩ =
      .unrecognized
        ⟨some "mystery", none, none, none, none, none, none, none, none⟩ :=
  ⟨by decide,
   (classify_total
      ⟨some "mystery", none, none, none, none, none, none, none, none⟩).2.2
     (by decide)⟩

/-! ## Task List Extractor (`ToolResultBlock`,
`src/components/MessageRenderer.tsx` lines 267-293) -/

/-- First detection marker: the TodoWrite success-confirmation phrase. -/
def todoMarker1 : String := "Todos have been modified successfully"

/-- Second detection marker: the literal phrase `"todo list"`. -/
def todoMarker2 : String := "todo list"

/-- `isTodoResult` from `ToolResultBlock`:
`block.content?.includes(marker1) || block.content?.includes(marker2)` —
case-sensitive substring detection, `false` when `content` is absent. -/
def isTodoResult (block : ContentBlock) : Bool :=
  match block.content with
  | some s => strIncludes s todoMarker1 || strIncludes s todoMarker2
  | none => false

/-- Index of the first occurrence of a character, scanning left to right. -/
def idxOfFirst (c : Char) : List Char → Option Nat
  | [] => none
  | x :: xs => if x == c then some 0 else (idxOfFirst c xs).map (· + 1)

/-- Index of the last occurrence of a character. -/
def idxOfLast (c : Char) (l : List Char) : Option Nat :=
  (idxOfFirst c l.reverse).map (fun k => l.length - 1 - k)

/-- The JavaScript regex match `content.match(/\{[\s\S]*\}/)`: the leftmost
starting position is the first `{`, and the greedy `[\s\S]*` backtracks to
the last `}` of the whole string; a match exists exactly when some `{`
precedes some `}`.  Returns the matched slice. -/
def braceMatch (l : List Char) : Option (List Char) :=
  match idxOfFirst '{' l, idxOfLast '}' l with
  | some i, some j => if i < j then some ((l.drop i).take (j - i + 1)) else none
  | _, _ => none

/-- JSON whitespace. -/
def isJsonWs (c : Char) : Bool :=
  c == ' ' || c == '\t' || c == '\n' || c == '\r'

/-- Drop leading JSON whitespace. -/
def skipWs (l : List Char) : List Char :=
  l.dropWhile isJsonWs

/-- Value of a hexadecimal digit. -/
def hexVal (c : Char) : Option Nat :=
  if c.isDigit then some (c.toNat - 48)
  else if 'a' ≤ c ∧ c ≤ 'f' then some (c.toNat - 87)
  else if 'A' ≤ c ∧ c ≤ 'F' then some (c.toNat - 55)
  else none

/-- Parse the body of a JSON string after the opening quote: returns the
decoded characters and the remainder after the closing quote.  Handles the
JSON escapes and rejects raw control characters, as `JSON.parse` does.
Fueled for structural termination. -/
def parseStrBody : Nat → List Char → Option (List Char × List Char)
  | 0, _ => none
  | _, [] => none
  | fuel + 1, c :: rest =>
    if c == '"' then some ([], rest)
    else if c == '\\' then
      match rest with
      | [] => none
      | e :: rest2 =>
        if e == '"' then consChar fuel '"' rest2
        else if e == '\\' then consChar fuel '\\' rest2
        else if e == '/' then consChar fuel '/' rest2
        else if e == 'b' then consChar fuel (Char.ofNat 8) rest2
        else if e == 'f' then consChar fuel (Char.ofNat 12) rest2
        else if e == 'n' then consChar fuel '\n' rest2
        else if e == 'r' then consChar fuel '\r' rest2
        else if e == 't' then consChar fuel '\t' rest2
        else if e == 'u' then
          match rest2 with
          | h1 :: h2 :: h3 :: h4 :: rest3 =>
            match hexVal h1, hexVal h2, hexVal h3, hexVal h4 with
            | some a, some b, some c2, some d =>
                consChar fuel (Char.ofNat (a * 4096 + b * 256 + c2 * 16 + d)) rest3
            | _, _, _, _ => none
          | _ => none
        else none
    else if c.toNat < 32 then none
    else consChar fuel c rest
where
  consChar (fuel : Nat) (ch : Char) (r : List Char) :
      Option (List Char × List Char) :=
    match parseStrBody fuel r with
    | some (s, r2) => some (ch :: s, r2)
    | none => none

/-- Parse the optional fraction part of a JSON number, returning the lexeme
characters consumed and the remainder; fails on a bare `.`. -/
def parseFracPart : List Char → Option (List Char × List Char)
  | '.' :: rest =>
    match rest with
    | d :: _ =>
      if d.isDigit then
        some ('.' :: rest.takeWhile Char.isDigit, rest.dropWhile Char.isDigit)
      else none
    | [] => none
  | l => some ([], l)

/-- Parse the optional exponent part of a JSON number. -/
def parseExpPart : List Char → Option (List Char × List Char)
  | e :: rest =>
    if e == 'e' || e == 'E' then
      match rest with
      | s :: rest2 =>
        if s == '+' || s == '-' then
          match rest2 with
          | d :: _ =>
            if d.isDigit then
              some (e :: s :: rest2.takeWhile Char.isDigit,
                    rest2.dropWhile Char.isDigit)
            else none
          | [] => none
        else if s.isDigit then
          some (e :: rest.takeWhile Char.isDigit, rest.dropWhile Char.isDigit)
        else none
      | [] => none
    else some ([], e :: rest)
  | [] => some ([], [])

/-- Parse a JSON number at the head of the input, keeping its lexeme:
`-? (0 | [1-9][0-9]*) frac? exp?`. -/
def parseNumber (l : List Char) : Option (Json × List Char) :=
  match l with
  | '-' :: rest => parseUnsigned ['-'] rest
  | _ => parseUnsigned [] l
where
  parseUnsigned (sign : List Char) (l1 : List Char) : Option (Json × List Char) :=
    match l1 with
    | [] => none
    | c :: rest =>
      if ¬ c.isDigit then none
      else
        let intPart : List Char × List Char :=
          if c == '0' then (['0'], rest)
          else (c :: rest.takeWhile Char.isDigit, rest.dropWhile Char.isDigit)
        match parseFracPart intPart.2 with
        | none => none
        | some (fracLex, r2) =>
          match parseExpPart r2 with
          | none => none
          | some (expLex, r3) =>
            some (.num (String.mk (sign ++ intPart.1 ++ fracLex ++ expLex)), r3)

/-- Overwrite-or-append assignment of an object member, as building a
JavaScript object does with duplicate keys: the first occurrence keeps its
position, the value is the last one assigned. -/
def objSet (fields : List (String × Json)) (k : String) (v : Json) :
    List (String × Json) :=
  if (jsonGet.lookupField fields k).isSome then
    fields.map (fun kv => if kv.1 == k then (k, v) else kv)
  else fields ++ [(k, v)]

mutual

/-- Parse one JSON value at the head of the input (leading whitespace
allowed), returning the value and the remainder.  Fuel bounds nesting. -/
def parseValue : Nat → List Char → Option (Json × List Char)
  | 0, _ => none
  | fuel + 1, l =>
    match skipWs l with
    | [] => none
    | '{' :: rest =>
      (match skipWs rest with
       | '}' :: r2 => some (.obj [], r2)
       | r2 => parseMembers fuel r2 [])
    | '[' :: rest =>
      (match skipWs rest with
       | ']' :: r2 => some (.arr [], r2)
       | r2 => parseElements fuel r2 [])
    | '"' :: rest =>
      (match parseStrBody (rest.length + 1) rest with
       | some (s, r2) => some (.str (String.mk s), r2)
       | none => none)
    | 't' :: 'r' :: 'u' :: 'e' :: r => some (.bool true, r)
    | 'f' :: 'a' :: 'l' :: 's' :: 'e' :: r => some (.bool false, r)
    | 'n' :: 'u' :: 'l' :: 'l' :: r => some (.null, r)
    | l2 => parseNumber l2

/-- Parse the members of a JSON object after its `{` (input positioned at a
key, whitespace already skipped), accumulating assignments. -/
def parseMembers : Nat → List Char → List (String × Json) →
    Option (Json × List Char)
  | 0, _, _ => none
  | fuel + 1, l, acc =>
    match l with
    | '"' :: rest =>
      (match parseStrBody (rest.length + 1) rest with
       | some (k, r2) =>
         (match skipWs r2 with
          | ':' :: r3 =>
            (match parseValue fuel r3 with
             | some (v, r4) =>
               (match skipWs r4 with
                | ',' :: r5 =>
                    parseMembers fuel (skipWs r5) (objSet acc (String.mk k) v)
                | '}' :: r5 => some (.obj (objSet acc (String.mk k) v), r5)
                | _ => none)
             | none => none)
          | _ => none)
       | none => none)
    | _ => none

/-- Parse the elements of a JSON array after its `[` (input positioned at
the first element). -/
def parseElements : Nat → List Char → List Json → Option (Json × List Char)
  | 0, _, _ => none
  | fuel + 1, l, acc =>
    match parseValue fuel l with
    | some (v, r2) =>
      (match skipWs r2 with
       | ',' :: r3 => parseElements fuel r3 (acc ++ [v])
       | ']' :: r3 => some (.arr (acc ++ [v]), r3)
       | _ => none)
    | none => none

end

/-- `JSON.parse` on a character list: parse one value and require only
whitespace to remain.  Parse failure is `none` (the model of the thrown
`SyntaxError` that the caller swallows). -/
def parseJsonL (l : List Char) : Option Json :=
  match parseValue (l.length + 1) l with
  | some (v, rest) => if (skipWs rest).isEmpty then some v else none
  | none => none

/-- The structured extraction path of `ToolResultBlock`:
`if (block.tool_use_result && block.tool_use_result.newTodos)` — both the
payload and its `newTodos` property need only be truthy; no sequence check
is made here. -/
def structuredTodos (block : ContentBlock) : Option Json :=
  match block.tool_use_result with
  | some r =>
    if jsTruthy r then
      match jsonGet r "newTodos" with
      | some v => if jsTruthy v then some v else none
      | none => none
    else none
  | none => none

/-- The scraped extraction path of `ToolResultBlock`:
`else if (block.content)` guard, then match `/\{[\s\S]*\}/` against the
text, `JSON.parse` the matched slice, and accept
`parsed.newTodos && Array.isArray(parsed.newTodos)`.  Every failure —
no brace match, a parse error, a missing or non-array `newTodos` — is
`none`; the `try`/`catch` swallows the parse error. -/
def scrapedTodos (block : ContentBlock) : Option Json :=
  match block.content with
  | some s =>
    if s == "" then none
    else
      match braceMatch s.toList with
      | some sub =>
        (match parseJsonL sub with
         | some parsed =>
           (match jsonGet parsed "newTodos" with
            | some v => if jsTruthy v && v.isArr then some v else none
            | none => none)
         | none => none)
      | none => none
  | none => none

/-- `extractTasks`: the `todoData` computation of `ToolResultBlock`.  Only a
segment whose `content` carries a detection marker is considered at all;
then the structured path is tried first and the scraped path only when the
structured one produced nothing. -/
def extractTasks (block : ContentBlock) : Option Json :=
  if isTodoResult block then
    match structuredTodos block with
    | some v => some v
    | none => scrapedTodos block
  else none

theorem jsonGet_some_truthy (r : Json) (k : String) (v : Json)
    (h : jsonGet r k = some v) : jsTruthy r = true := by
  cases r with
  | null => exact absurd h (by simp [jsonGet])
  | bool b => exact absurd h (by simp [jsonGet])
  | num lexeme => exact absurd h (by simp [jsonGet])
  | str s => exact absurd h (by simp [jsonGet])
  | arr elems => exact absurd h (by simp [jsonGet])
  | obj fields => rfl

theorem isArr_truthy (v : Json) (h : v.isArr = true) : jsTruthy v = true := by
  cases v with
  | null => simp [Json.isArr] at h
  | bool b => simp [Json.isArr] at h
  | num lexeme => simp [Json.isArr] at h
  | str s => simp [Json.isArr] at h
  | arr elems => rfl
  | obj fields => simp [Json.isArr] at h

/-- C2: when the raw text carries a detection marker and the structured
payload carries a `newTodos` field that is a sequence, `extractTasks`
returns that sequence verbatim — whatever else (including a different or
malformed JSON blob) the raw text may contain, the scraped path is never
consulted. -/
theorem extractTasks_structured_precedence (block : ContentBlock) (r : Json)
    (ts : List Json)
    (hmark : isTodoResult block = true)
    (hres : block.tool_use_result = some r)
    (hget : jsonGet r "newTodos" = some (Json.arr ts)) :
    extractTasks block = some (Json.arr ts) := by
  have hr : jsTruthy r = true := jsonGet_some_truthy r _ _ hget
  have hst : structuredTodos block = some (Json.arr ts) := by
    unfold structuredTodos
    rw [hres]
    dsimp only
    rw [if_pos hr, hget]
    rfl
  unfold extractTasks
  simp only [hmark, if_true, hst]

/-- Witness for C2: the detection marker plus a malformed blob in the text,
a valid structured list in the payload — the structured list wins. -/
theorem extractTasks_structured_precedence_witness :
    isTodoResult
      ⟨none, none, none, none, none, none,
        some "Todos have been modified successfully \x7bmalformed",
        some (.obj [("newTodos", .arr [.str "task"])]), none⟩ = true ∧
    extractTasks
      ⟨none, none, none, none, none, none,
        some "Todos have been modified successfully \x7bmalformed",
        some (.obj [("newTodos", .arr [.str "task"])]), none⟩ =
      some (.arr [.str "task"]) :=
  ⟨rfl,
   extractTasks_structured_precedence _ (.obj [("newTodos", .arr [.str "task"])])
     [.str "task"] rfl rfl rfl⟩

/-- C5: when the raw text contains neither detection marker (or is absent),
`extractTasks` returns absent, no matter what the structured payload
holds — the text markers gate the whole extraction. -/
theorem extractTasks_requires_marker (block : ContentBlock)
    (h : block.content = none ∨
      ∃ s, block.content = some s ∧
        strIncludes s todoMarker1 = false ∧
        strIncludes s todoMarker2 = false) :
    extractTasks block = none := by
  have hf : isTodoResult block = false := by
    unfold isTodoResult
    rcases h with hnone | ⟨s, hs, h1, h2⟩
    · rw [hnone]
    · rw [hs]
      simp only [h1, h2, Bool.or_self]
  unfold extractTasks
  simp only [hf, Bool.false_eq_true, if_false]

/-- Witness for C5: marker-free text and a perfectly valid structured
list still yield absent. -/
theorem extractTasks_requires_marker_witness :
    strIncludes "hello" todoMarker1 = false ∧
    strIncludes "hello" todoMarker2 = false ∧
    extractTasks
      ⟨none, none, none, none, none, none, some "hello",
        some (.obj [("newTodos", .arr [.bool true])]), none⟩ = none :=
  ⟨rfl, rfl,
   extractTasks_requires_marker _ (Or.inr ⟨"hello", rfl, rfl, rfl⟩)⟩

theorem extractTasks_eq_scraped (block : ContentBlock)
    (hmark : isTodoResult block = true)
    (hst : structuredTodos block = none) :
    extractTasks block = scrapedTodos block := by
  unfold extractTasks
  rw [if_pos hmark, hst]

/-- C6: with a detection marker present and no usable structured payload,
the scraped path takes the slice of the raw text from the first `{` to the
greedy outermost `}`, parses it as JSON, and yields the parsed `newTodos`
field exactly when the parse succeeds and that field is a sequence; a
missing brace match or a parse failure (the swallowed exception, modelled as
`none`) makes `extractTasks` absent rather than an error. -/
theorem extractTasks_scraped_path (block : ContentBlock) (s : String)
    (v : Json)
    (hmark : isTodoResult block = true)
    (hst : structuredTodos block = none)
    (hc : block.content = some s) :
    (extractTasks block = some v ↔
      ∃ sub parsed, braceMatch s.toList = some sub ∧
        parseJsonL sub = some parsed ∧
        jsonGet parsed "newTodos" = some v ∧ v.isArr = true) ∧
    (braceMatch s.toList = none → extractTasks block = none) ∧
    (∀ sub, braceMatch s.toList = some sub → parseJsonL sub = none →
      extractTasks block = none) := by
  have hne : (s == "") = false := by
    have hs : s ≠ "" := by
      intro hs
      subst hs
      unfold isTodoResult at hmark
      rw [hc] at hmark
      exact absurd hmark (by decide)
    simp [hs]
  have he : extractTasks block = scrapedTodos block :=
    extractTasks_eq_scraped block hmark hst
  have hbody : extractTasks block =
      (match braceMatch s.toList with
       | some sub =>
         (match parseJsonL sub with
          | some parsed =>
            (match jsonGet parsed "newTodos" with
             | some w => if jsTruthy w && w.isArr then some w else none
             | none => none)
          | none => none)
       | none => none) := by
    rw [he]
    unfold scrapedTodos
    rw [hc]
    dsimp only
    simp only [hne, Bool.false_eq_true, if_false]
  refine ⟨?_, ?_, ?_⟩
  · rw [hbody]
    cases hb : braceMatch s.toList with
    | none => simp
    | some sub =>
      cases hp : parseJsonL sub with
      | none => simp [hp]
      | some parsed =>
        cases hg : jsonGet parsed "newTodos" with
        | none => simp [hp, hg]
        | some w =>
          by_cases hw : (jsTruthy w && w.isArr) = true
          · have harr : w.isArr = true := by
              rw [Bool.and_eq_true] at hw
              exact hw.2
            simp only [hp, hg, hw, if_true]
            constructor
            · intro h
              injection h with h
              subst h
              exact ⟨sub, parsed, rfl, hp, hg, harr⟩
            · rintro ⟨sub2, parsed2, hb2, hp2, hg2, ha2⟩
              obtain rfl : sub2 = sub := (Option.some_inj.mp hb2).symm
              obtain rfl : parsed2 = parsed := by
                rw [hp] at hp2
                exact (Option.some_inj.mp hp2).symm
              rw [hg] at hg2
              exact hg2
          · have hwf : (jsTruthy w && w.isArr) = false := by
              cases hq : (jsTruthy w && w.isArr)
              · rfl
              · exact absurd hq hw
            simp only [hp, hg, hwf, Bool.false_eq_true, if_false]
            constructor
            · intro h
              exact absurd h (by simp)
            · rintro ⟨sub2, parsed2, hb2, hp2, hg2, ha2⟩
              obtain rfl : sub2 = sub := (Option.some_inj.mp hb2).symm
              obtain rfl : parsed2 = parsed := by
                rw [hp] at hp2
                exact (Option.some_inj.mp hp2).symm
              rw [hg] at hg2
              obtain rfl : w = v := Option.some_inj.mp hg2
              rw [isArr_truthy w ha2, ha2] at hwf
              simp at hwf
  · intro hb
    rw [hbody, hb]
  · intro sub hb hp
    rw [hbody, hb]
    dsimp only
    rw [hp]

/-- Witness for C6, both ways: with a marker and an embedded well-formed
`newTodos` object the scraped path extracts the list, and with a marker but
no JSON at all (`"Todos have been modified successfully but no json here"`)
the result is absent, not an error. -/
theorem extractTasks_scraped_path_witness :
    extractTasks
      ⟨none, none, none, none, none, none,
        some "Todos have been modified successfully \x7b\"newTodos\":[]\x7d done",
        none, none⟩ = some (.arr []) ∧
    extractTasks
      ⟨none, none, none, none, none, none,
        some "Todos have been modified successfully but no json here",
        none, none⟩ = none :=
  ⟨((extractTasks_scraped_path
      ⟨none, none, none, none, none, none,
        some "Todos have been modified successfully \x7b\"newTodos\":[]\x7d done",
        none, none⟩
      "Todos have been modified successfully \x7b\"newTodos\":[]\x7d done"
      (.arr []) rfl rfl rfl).1).mpr
    ⟨"\x7b\"newTodos\":[]\x7d".toList, .obj [("newTodos", .arr [])],
      by decide, by with_unfolding_all rfl, rfl, rfl⟩,
   ((extractTasks_scraped_path
      ⟨none, none, none, none, none, none,
        some "Todos have been modified successfully but no json here",
        none, none⟩
      "Todos have been modified successfully but no json here"
      (.arr []) rfl rfl rfl).2).1 (by decide)⟩

/-- C10 (implicit): the structured path does not check that `newTodos` is a
sequence — any truthy value of the field is returned verbatim and the
scraped path is never consulted, even when the raw text embeds a well-formed
JSON object with a valid `newTodos` sequence. -/
theorem extractTasks_structured_unchecked (block : ContentBlock) (r v : Json)
    (hmark : isTodoResult block = true)
    (hres : block.tool_use_result = some r)
    (hget : jsonGet r "newTodos" = some v)
    (htru : jsTruthy v = true) :
    extractTasks block = some v := by
  have hr : jsTruthy r = true := jsonGet_some_truthy r _ _ hget
  have hst : structuredTodos block = some v := by
    unfold structuredTodos
    rw [hres]
    dsimp only
    rw [if_pos hr, hget]
    dsimp only
    rw [if_pos htru]
  unfold extractTasks
  simp only [hmark, if_true, hst]

/-- Witness for C10: the `newTodos` of the payload is the string `"x"`
(truthy, not a sequence) while the text embeds a well-formed JSON object
whose `newTodos` is a valid sequence, which the scraped path alone would
extract; `extractTasks` still returns the non-sequence string. -/
theorem extractTasks_structured_unchecked_witness :
    isTodoResult
      ⟨none, none, none, none, none, none,
        some "Todos have been modified successfully \x7b\"newTodos\":[true]\x7d",
        some (.obj [("newTodos", .str "x")]), none⟩ = true ∧
    extractTasks
      ⟨none, none, none, none, none, none,
        some "Todos have been modified successfully \x7b\"newTodos\":[true]\x7d",
        some (.obj [("newTodos", .str "x")]), none⟩ = some (.str "x") ∧
    scrapedTodos
      ⟨none, none, none, none, none, none,
        some "Todos have been modified successfully \x7b\"newTodos\":[true]\x7d",
        some (.obj [("newTodos", .str "x")]), none⟩ = some (.arr [.bool true]) :=
  ⟨rfl,
   extractTasks_structured_unchecked _ (.obj [("newTodos", .str "x")])
     (.str "x") rfl rfl rfl rfl,
   by with_unfolding_all rfl⟩

/-! ## Search Result Resolver and Match-Category Filter
(`src/components/AppSidebar.tsx`) -/

/-- `ChatSession` from `src/types/chat.ts`. -/
structure ChatSession where
  id : String
  title : String
  timestamp : String
  project_path : String
  message_count : Nat
  last_updated : String

/-- `ProjectFolder` from `src/types/chat.ts`. -/
structure ProjectFolder where
  name : String
  path : String
  chat_sessions : List ChatSession

/-- The fixed closed enumeration of match categories, in the order of the
`ALL_MATCH_TYPES` constant of `AppSidebar.tsx`. -/
inductive MatchType where
  | content : MatchType
  | thinking : MatchType
  | tool_name : MatchType
  | tool_input : MatchType
  | tool_result : MatchType
  | tool_structured_result : MatchType

deriving instance DecidableEq for MatchType

/-- `ALL_MATCH_TYPES` from `AppSidebar.tsx`: the full fixed enumeration. -/
def ALL_MATCH_TYPES : List MatchType :=
  [.content, .thinking, .tool_name, .tool_input, .tool_result,
   .tool_structured_result]

/-- `SearchResult` from `src/types/chat.ts`; per the data model its
`match_type` ranges over the fixed closed enumeration. -/
structure SearchResult where
  session_id : String
  message_uuid : String
  snippet : String
  match_type : MatchType

/-- The session-lookup loop of `handleSearchResultClick`: iterate projects
in order and within each project scan `chat_sessions` in order with
`find`, returning the first session whose id equals the searched id. -/
def findSessionInProjects (sid : String) : List ProjectFolder → Option ChatSession
  | [] => none
  | p :: ps =>
    match p.chat_sessions.find? (fun s => s.id == sid) with
    | some s => some s
    | none => findSessionInProjects sid ps

/-- `handleSearchResultClick` from `AppSidebar.tsx` (the session-resolution
part; the `onSelectSession` callback receives the returned session).  The
current time (`new Date().toISOString()`) is passed in as `now`, making the
only nondeterminism explicit. -/
def handleSearchResultClick (result : SearchResult)
    (projects : List ProjectFolder) (now : String) : ChatSession :=
  match findSessionInProjects result.session_id projects with
  | some s => s
  | none =>
    { id := result.session_id
      title := "Search Result: " ++ result.snippet.take 50 ++ "..."
      timestamp := now
      project_path := ""
      message_count := 0
      last_updated := now }

/-- All sessions of all projects, projects in given order and each
sessions of each project in given order — the scan order the claim
describes. -/
def allSessionsInOrder : List ProjectFolder → List ChatSession
  | [] => []
  | p :: ps => p.chat_sessions ++ allSessionsInOrder ps

theorem findSessionInProjects_eq_find (sid : String)
    (projects : List ProjectFolder) :
    findSessionInProjects sid projects =
      (allSessionsInOrder projects).find? (fun s => s.id == sid) := by
  induction projects with
  | nil => rfl
  | cons p ps ih =>
      unfold findSessionInProjects allSessionsInOrder
      rw [List.find?_append]
      cases h : p.chat_sessions.find? (fun s => s.id == sid) with
      | some s => simp [h]
      | none => simp [h, ih]

/-- C4: the resolver returns the first session, scanning projects in order
and the sessions of each project in order, whose id equals the searched
session id; when none matches it synthesizes the placeholder session with
the fixed title prefix, the first 50 snippet characters plus an ellipsis,
the current time in both time fields, an empty project path and a zero
message count — so resolution is a total function. -/
theorem handleSearchResultClick_resolves (result : SearchResult)
    (projects : List ProjectFolder) (now : String) :
    handleSearchResultClick result projects now =
      (match (allSessionsInOrder projects).find?
          (fun s => s.id == result.session_id) with
       | some s => s
       | none =>
         { id := result.session_id
           title := "Search Result: " ++ result.snippet.take 50 ++ "..."
           timestamp := now
           project_path := ""
           message_count := 0
           last_updated := now }) := by
  unfold handleSearchResultClick
  rw [findSessionInProjects_eq_find]

/-- `filteredResults` from `AppSidebar.tsx`:
`searchResults.filter(result => activeFilters.has(result.match_type))`;
the active-filter set is modelled as a list with membership as `has`. -/
def filteredResults (results : List SearchResult)
    (activeFilters : List MatchType) : List SearchResult :=
  results.filter (fun result => decide (result.match_type ∈ activeFilters))

/-- The filter as the claim words it: keep, in input order, exactly the
elements whose match type is a member of the active set. -/
def keepActive (active : List MatchType) : List SearchResult → List SearchResult
  | [] => []
  | r :: rs =>
    if r.match_type ∈ active then r :: keepActive active rs
    else keepActive active rs

theorem matchType_mem_all (m : MatchType) : m ∈ ALL_MATCH_TYPES := by
  cases m <;> simp [ALL_MATCH_TYPES]

/-- C7: filtering keeps exactly the subsequence whose match type lies in the
active set, preserving relative order (it is a sublist of the input); with
the full fixed enumeration active the output is the input, and with the
empty active set it is empty. -/
theorem filteredResults_spec (results : List SearchResult)
    (active : List MatchType) :
    filteredResults results active = keepActive active results ∧
    List.Sublist (filteredResults results active) results ∧
    filteredResults results ALL_MATCH_TYPES = results ∧
    filteredResults results [] = [] := by
  refine ⟨?_, List.filter_sublist results, ?_, ?_⟩
  · induction results with
    | nil => rfl
    | cons r rs ih =>
        unfold keepActive filteredResults
        by_cases h : r.match_type ∈ active
        · rw [List.filter_cons]
          simp only [h, decide_True, if_true, if_pos h]
          exact congrArg _ ih
        · rw [List.filter_cons]
          simp only [h, decide_False, Bool.false_eq_true, if_false, if_neg h]
          exact ih
  · exact List.filter_eq_self.mpr
      (fun r _ => by simp [matchType_mem_all r.match_type])
  · exact List.filter_eq_nil_iff.mpr (fun r _ => by simp)
